import Mathlib

/-!
Shallow embedding of the bitcask storage engine (crates `srv`, module `store`):
the segment file format (`format.rs`), the in-memory key directory
(`keydir.rs`), segment files (`logfile.rs`) and the disk storage engine
(`storage.rs`).  Files are modelled as byte lists, the segment table as an
association list from file id to file content, and every operation is a pure
function on an explicit engine state.  Wall-clock time is passed as an explicit
`ts` argument where the code calls `Utc::now()`.

The crate's `settings.rs` is not part of the sources; the constant
`REMOVE_TOMESTONE` it defines is therefore passed as an explicit `tomb`
parameter to the definitions that mention it (the spec fixes only that it is a
reserved, fixed byte sequence).
-/

/-- Bytes are naturals; writers only ever produce values below 256. -/
abbrev Byte := Nat

/-- Big-endian encoding of the low 32 bits of `n`, as produced by
`u32::to_be_bytes` after an `as u32` truncation. -/
def toBE32 (n : Nat) : List Byte :=
  [n / 16777216 % 256, n / 65536 % 256, n / 256 % 256, n % 256]

/-- Big-endian decoding of four bytes, as in `u32::from_be_bytes`. -/
def fromBE32 (a b c d : Nat) : Nat :=
  ((a * 256 + b) * 256 + c) * 256 + d

/-- Big-endian encoding of the low 64 bits of `n` (`u64::to_be_bytes`). -/
def toBE64 (n : Nat) : List Byte :=
  [n / 72057594037927936 % 256, n / 281474976710656 % 256,
   n / 1099511627776 % 256, n / 4294967296 % 256,
   n / 16777216 % 256, n / 65536 % 256, n / 256 % 256, n % 256]

/-- `StoreError` from `error.rs`.  Payloads that only carry diagnostic text are
dropped; `Io` stands for any `std::io::Error` (including the `UnexpectedEof`
produced by `read_exact`). -/
inductive StoreError where
  | ParseInt : StoreError
  | Io : StoreError
  | Glob : StoreError
  | Pattern : StoreError
  | DeserializeError : StoreError
  | DataEntryCorrupted : Nat → List Byte → Nat → StoreError
  | KeyNotFound : List Byte → StoreError
  | KeyIsTooLarge : StoreError
  | ValueIsTooLarge : StoreError
  | FileNotWriteable : StoreError
  | AlreadyLocked : StoreError
  | Custom : String → StoreError
deriving DecidableEq, Repr

deriving instance DecidableEq for Except

/-- Outcome of a Rust call that can return `Ok`, return `Err`, or panic
(`unwrap` / `expect` / failed `assert`). -/
inductive RRes (α : Type) where
  | ok : α → RRes α
  | err : StoreError → RRes α
  | panicked : RRes α
deriving DecidableEq, Repr

/-- `HEADER_SIZE` from `format.rs`. -/
def HEADER_SIZE : Nat := 16

/-- `DataHeader::new(crc, timestamp, key_sz, value_sz)`: the 16-byte buffer
`crc | timestamp | key_sz | value_sz`, each field big-endian `u32`. -/
def DataHeader.new (crc ts ksz vsz : Nat) : List Byte :=
  toBE32 crc ++ toBE32 ts ++ toBE32 ksz ++ toBE32 vsz

/-- `DataHeader::timestamp`: decode bytes 4..8 of the header buffer.  Missing
bytes read as zero, matching the zero-initialized 16-byte buffer. -/
def hdrTimestamp (h : List Byte) : Nat :=
  fromBE32 (h.getD 4 0) (h.getD 5 0) (h.getD 6 0) (h.getD 7 0)

/-- `DataHeader::key_sz`: decode bytes 8..12 of the header buffer. -/
def hdrKeySz (h : List Byte) : Nat :=
  fromBE32 (h.getD 8 0) (h.getD 9 0) (h.getD 10 0) (h.getD 11 0)

/-- `DataHeader::value_sz`: decode bytes 12..16 of the header buffer. -/
def hdrValueSz (h : List Byte) : Nat :=
  fromBE32 (h.getD 12 0) (h.getD 13 0) (h.getD 14 0) (h.getD 15 0)

/-- `DataEntry` from `format.rs`: a parsed or to-be-written data record. -/
structure DataEntry where
  header : List Byte
  key : List Byte
  value : List Byte
  offset : Option Nat
  file_id : Option Nat
deriving DecidableEq, Repr

/-- The byte sequence emitted by `DataEntry::write_to` for the entry built by
`DataEntry::new(key, value)` at wall-clock second `ts` (the CRC field is
always written as zero; `key.len() as u32` truncation is performed by
`toBE32`). -/
def encRecord (crc ts : Nat) (k v : List Byte) : List Byte :=
  DataHeader.new crc ts k.length v.length ++ k ++ v

/-- `Read::read_exact` on a byte-list file at cursor `pos`: succeeds exactly
when `n` bytes are available, otherwise fails with an I/O error
(`UnexpectedEof`). -/
def readExact (file : List Byte) (pos n : Nat) : Except StoreError (List Byte) :=
  if pos + n ≤ file.length then .ok ((file.drop pos).take n) else .error .Io

/-- `DataEntry::read_from(r, offset)`: seek to `offset`, `read` up to 16 bytes
into a zero-initialized buffer (`Ok(None)` exactly when zero bytes are
available), then `read_exact` the key and the value using the sizes decoded
from the (possibly partially filled) buffer. -/
def DataEntry.read_from (file : List Byte) (offset : Nat) :
    Except StoreError (Option DataEntry) :=
  let raw := (file.drop offset).take HEADER_SIZE
  if raw.length = 0 then .ok none
  else
    let buf := raw ++ List.replicate (HEADER_SIZE - raw.length) 0
    let pos := offset + raw.length
    match readExact file pos (hdrKeySz buf) with
    | .error e => .error e
    | .ok key =>
      match readExact file (pos + hdrKeySz buf) (hdrValueSz buf) with
      | .error e => .error e
      | .ok value =>
        .ok (some { header := buf, key := key, value := value,
                    offset := none, file_id := none })

/-- `DataFile::read(offset)` from `logfile.rs`: returns `None` when the file
is shorter than `offset`, otherwise delegates to `DataEntry::read_from`. -/
def DataFile.read (file : List Byte) (offset : Nat) :
    Except StoreError (Option DataEntry) :=
  if file.length < offset then .ok none
  else DataEntry.read_from file offset

/-- The segment table: file id to file content.  Mirrors
`BTreeMap<u64, DataFile>` together with the on-disk bytes of each file. -/
abbrev FileMap := List (Nat × List Byte)

/-- Map lookup (first matching id). -/
def FileMap.lookup : FileMap → Nat → Option (List Byte)
  | [], _ => none
  | (i, f) :: m, j => if j = i then some f else FileMap.lookup m j

/-- Map insert, replacing the binding of `i` when present. -/
def FileMap.insert : FileMap → Nat → List Byte → FileMap
  | [], i, f => [(i, f)]
  | (j, g) :: m, i, f =>
    if i = j then (i, f) :: m else (j, g) :: FileMap.insert m i f

/-- Content of file `i`, or the empty file when absent (a freshly created
segment file is empty). -/
def FileMap.lookupD (m : FileMap) (i : Nat) : List Byte :=
  (FileMap.lookup m i).getD []

/-- Largest registered file id, `0` for the empty table
(`keys().max().unwrap_or(&0)`). -/
def FileMap.maxId (m : FileMap) : Nat :=
  m.foldr (fun p acc => max p.1 acc) 0

/-- `KeydirEntry` from `keydir.rs`. -/
structure KeydirEntry where
  file_id : Nat
  offset : Nat
  size : Nat
  timestamp : Nat
deriving DecidableEq, Repr

/-- `HashmapKeydir`: the in-memory index, modelled as an association list with
unique keys (iteration order stands in for the hash map's unspecified
order). -/
abbrev HashmapKeydir := List (List Byte × KeydirEntry)

/-- `HashmapKeydir::get`. -/
def HashmapKeydir.get : HashmapKeydir → List Byte → Option KeydirEntry
  | [], _ => none
  | (k, e) :: m, q => if q = k then some e else HashmapKeydir.get m q

/-- `HashmapKeydir::put`: insert when absent; when present, replace exactly
when the stored timestamp is ≤ the incoming timestamp. -/
def HashmapKeydir.put : HashmapKeydir → List Byte → KeydirEntry → HashmapKeydir
  | [], k, e => [(k, e)]
  | (k', e') :: m, k, e =>
    if k = k' then
      (if e'.timestamp ≤ e.timestamp then (k', e) :: m else (k', e') :: m)
    else (k', e') :: HashmapKeydir.put m k e

/-- `HashmapKeydir::remove`: delete the binding unconditionally. -/
def HashmapKeydir.remove (m : HashmapKeydir) (k : List Byte) : HashmapKeydir :=
  m.filter (fun p => decide (p.1 ≠ k))

/-- `HashmapKeydir::contains_key`. -/
def HashmapKeydir.contains_key (m : HashmapKeydir) (k : List Byte) : Bool :=
  (HashmapKeydir.get m k).isSome

/-- `HashmapKeydir::len`. -/
def HashmapKeydir.len (m : HashmapKeydir) : Nat := m.length

/-- `HashmapKeydir::keys`. -/
def HashmapKeydir.keys (m : HashmapKeydir) : List (List Byte) := m.map (·.1)

/-- `HashmapKeydir::for_each(f)`: visit entries in order; the callback gets
mutable access to the entry (returned as the middle component) and to its
captured environment `σ`; it stops early on `Ok(true)` and propagates `Err`
(or a panic inside the callback). -/
def HashmapKeydir.for_each (σ : Type)
    (g : List Byte → KeydirEntry → σ → RRes (Bool × KeydirEntry × σ)) :
    HashmapKeydir → σ → RRes (HashmapKeydir × σ)
  | [], st => .ok ([], st)
  | (k, e) :: m, st =>
    match g k e st with
    | .err er => .err er
    | .panicked => .panicked
    | .ok (stop, e', st') =>
      if stop then .ok ((k, e') :: m, st')
      else
        match HashmapKeydir.for_each σ g m st' with
        | .ok (m', st'') => .ok ((k, e') :: m', st'')
        | .err er => .err er
        | .panicked => .panicked

/-- `StoreOptions` from `store/mod.rs`. -/
structure StoreOptions where
  max_log_file_size : Nat
  sync : Bool
  max_key_size : Nat
  max_value_size : Nat
deriving DecidableEq, Repr

/-- `DiskStorage` state: the segment table (data files with their on-disk
bytes), the hint files, the id of the single active (appendable) segment, the
key directory and the options.  The active file's read-only twin registered in
`data_files` shares the same bytes, so one table suffices. -/
structure DiskStorage where
  data_files : FileMap
  hint_files : FileMap
  active_file_id : Nat
  keydir : HashmapKeydir
  opts : StoreOptions
deriving DecidableEq, Repr

/-- `DiskStorage::write(key, value)`: rotate the active segment when its size
exceeds `max_log_file_size` (new id = largest registered id + 1), then append
one data record at the tail.  Returns the new state, the file id and the
offset of the appended record; `ts` is the wall-clock second used for the
record header. -/
def DiskStorage.write (s : DiskStorage) (k v : List Byte) (ts : Nat) :
    DiskStorage × Nat × Nat :=
  let s :=
    if (FileMap.lookupD s.data_files s.active_file_id).length >
        s.opts.max_log_file_size then
      let nid := FileMap.maxId s.data_files + 1
      let dfr := FileMap.insert s.data_files nid (FileMap.lookupD s.data_files nid)
      { s with active_file_id := nid, data_files := dfr }
    else s
  let f := FileMap.lookupD s.data_files s.active_file_id
  let df' := FileMap.insert s.data_files s.active_file_id (f ++ encRecord 0 ts k v)
  ({ s with data_files := df' }, s.active_file_id, f.length)

/-- `DiskStorage::set`: reject oversized keys/values, append a data record,
then `put` the derived entry into the key directory.  Returns the state after
the call together with the call's result. -/
def DiskStorage.set (s : DiskStorage) (k v : List Byte) (ts : Nat) :
    DiskStorage × Except StoreError Unit :=
  if k.length > s.opts.max_key_size then (s, .error .KeyIsTooLarge)
  else if v.length > s.opts.max_value_size then (s, .error .ValueIsTooLarge)
  else
    let w := DiskStorage.write s k v ts
    let ke : KeydirEntry :=
      { file_id := w.2.1, offset := w.2.2,
        size := HEADER_SIZE + k.length + v.length, timestamp := ts % 4294967296 }
    ({ w.1 with keydir := HashmapKeydir.put w.1.keydir k ke }, .ok ())

/-- `DiskStorage::get`: look up the key directory; on a hit, find the segment
(panics when the table misses) and read the record at the stored offset. -/
def DiskStorage.get (s : DiskStorage) (k : List Byte) :
    RRes (Option (List Byte)) :=
  match HashmapKeydir.get s.keydir k with
  | none => .ok none
  | some ke =>
    match FileMap.lookup s.data_files ke.file_id with
    | none => .panicked
    | some f =>
      match DataFile.read f ke.offset with
      | .error e => .err e
      | .ok none => .ok none
      | .ok (some de) => .ok (some de.value)

/-- `DiskStorage::delete`: succeed silently when the key is absent; otherwise
append a record whose value is the tombstone, then remove the key. -/
def DiskStorage.delete (tomb : List Byte) (s : DiskStorage) (k : List Byte)
    (ts : Nat) : DiskStorage × Except StoreError Unit :=
  if HashmapKeydir.contains_key s.keydir k = false then (s, .ok ())
  else
    let w := DiskStorage.write s k tomb ts
    ({ w.1 with keydir := HashmapKeydir.remove w.1.keydir k }, .ok ())

/-- `DiskStorage::contains_key` delegates to the key directory. -/
def DiskStorage.contains_key (s : DiskStorage) (k : List Byte) : Bool :=
  HashmapKeydir.contains_key s.keydir k

/-- `DiskStorage::for_each(f)`: wrap `f` so that each visited entry's data
record is read through the segment table (`unwrap` on a table miss panics), a
record that reads as `None` yields `Ok(false)` (continue), and otherwise `f`
is applied to the record's key and value bytes. -/
def DiskStorage.for_each (s : DiskStorage)
    (f : List Byte → List Byte → Except StoreError Bool) : RRes Unit :=
  match HashmapKeydir.for_each Unit
    (fun _k ke _u =>
      match FileMap.lookup s.data_files ke.file_id with
      | none => .panicked
      | some df =>
        match DataFile.read df ke.offset with
        | .error e => .err e
        | .ok none => .ok (false, ke, ())
        | .ok (some de) =>
          match f de.key de.value with
          | .error e => .err e
          | .ok b => .ok (b, ke, ()))
    s.keydir () with
  | .ok _ => .ok ()
  | .err e => .err e
  | .panicked => .panicked

/-- The engine state produced by `DiskStorage::open_with_options` on a fresh,
empty directory: no pre-existing data files, an empty key directory, and a new
active segment with id `max(∅, 0) + 1 = 1` registered in the table. -/
def DiskStorage.openEmpty (opts : StoreOptions) : DiskStorage :=
  { data_files := [(1, [])], hint_files := [], active_file_id := 1,
    keydir := [], opts := opts }

/-- Replay loop of `build_keydir_from_data_file` (the `for entry in df.iter()`
body): read the record at `offset` (the iterator's `unwrap` turns a read error
into a panic), remove the key when the value equals the tombstone, otherwise
`put` the entry derived via `KeydirEntry::from`, then advance by the record's
total size. -/
def DiskStorage.replayFrom (tomb : List Byte) (fid : Nat) (kd : HashmapKeydir)
    (f : List Byte) (offset : Nat) : RRes HashmapKeydir :=
  match h : DataEntry.read_from f offset with
  | .error _ => .panicked
  | .ok none => .ok kd
  | .ok (some de) =>
    let kd' :=
      if de.value = tomb then HashmapKeydir.remove kd de.key
      else
        HashmapKeydir.put kd de.key
          { file_id := fid, offset := offset,
            size := HEADER_SIZE + de.key.length + de.value.length,
            timestamp := hdrTimestamp de.header }
    DiskStorage.replayFrom tomb fid kd' f
      (offset + (HEADER_SIZE + de.key.length + de.value.length))
termination_by f.length - offset
decreasing_by
  have hlt : offset < f.length := by
    by_contra hc
    have hnil : f.drop offset = [] := List.drop_eq_nil_of_le (by omega)
    simp [DataEntry.read_from, hnil] at h
  simp only [HEADER_SIZE]
  omega

/-- `DiskStorage::build_keydir_from_data_file` applied to one data file:
iterate its records from offset 0 and fold them into the key directory. -/
def DiskStorage.build_keydir_from_data_file (tomb : List Byte)
    (kd : HashmapKeydir) (fid : Nat) (f : List Byte) : RRes HashmapKeydir :=
  DiskStorage.replayFrom tomb fid kd f 0

/-- `HintHeader::new(offset, key_sz, value_sz)`: 8-byte big-endian offset then
two big-endian `u32` sizes. -/
def HintHeader.new (off ksz vsz : Nat) : List Byte :=
  toBE64 off ++ toBE32 ksz ++ toBE32 vsz

/-- The bytes emitted by `HintFile::write(key, offset, size)` for one hint
record (`HintEntry::new` computes `value_sz = size - HEADER_SIZE - key_sz`). -/
def encHintRecord (k : List Byte) (off size : Nat) : List Byte :=
  HintHeader.new off k.length (size - HEADER_SIZE - k.length) ++ k

/-- Mutable environment captured by the compaction closure in
`DiskStorage::compact`: the segment table, the hint files, and the id of the
current compaction output segment. -/
structure CompState where
  files : FileMap
  hints : FileMap
  cid : Nat
deriving DecidableEq, Repr

/-- Copy part of the compaction closure: locate the source segment (`expect`
panics on a table miss), splice `entry.size` bytes starting at `entry.offset`
onto the output's tail (the `assert_eq!` in `copy_bytes_from` panics when
fewer bytes are available), update the entry in place, and append the hint
record.  Always returns `Ok(false)`. -/
def compactStepCopy (k : List Byte) (e : KeydirEntry) (st : CompState) :
    RRes (Bool × KeydirEntry × CompState) :=
  match FileMap.lookup st.files e.file_id with
  | none => .panicked
  | some src =>
    if e.offset + e.size ≤ src.length then
      let dst := FileMap.lookupD st.files st.cid
      let e' := { e with file_id := st.cid, offset := dst.length }
      let piece := (src.drop e.offset).take e.size
      let hint := FileMap.lookupD st.hints st.cid
      .ok (false, e',
        { files := FileMap.insert st.files st.cid (dst ++ piece),
          hints := FileMap.insert st.hints st.cid
            (hint ++ encHintRecord k e'.offset e'.size),
          cid := st.cid })
    else .panicked

/-- One iteration of the compaction closure: advance to a fresh output
segment when the current one exceeds `max_log_file_size`, then copy the
entry's record into it. -/
def compactStep (maxLog : Nat) (k : List Byte) (e : KeydirEntry)
    (st : CompState) : RRes (Bool × KeydirEntry × CompState) :=
  let st :=
    if (FileMap.lookupD st.files st.cid).length > maxLog then
      let cid' := st.cid + 1
      { files := FileMap.insert st.files cid' (FileMap.lookupD st.files cid'),
        hints := FileMap.insert st.hints cid' (FileMap.lookupD st.hints cid'),
        cid := cid' }
    else st
  compactStepCopy k e st

/-- `DiskStorage::compact`: rotate the active segment to `next_file_id + 1`,
open compaction output `next_file_id + 2` (data and hint), rewrite every live
entry through `compactStep`, then delete every segment with id ≤
`next_file_id` from disk and drop it from the segment table. -/
def DiskStorage.compact (s : DiskStorage) : RRes DiskStorage :=
  let next := s.active_file_id + 1
  let aid := next + 1
  let files1 := FileMap.insert s.data_files aid (FileMap.lookupD s.data_files aid)
  let cid0 := next + 2
  let files2 := FileMap.insert files1 cid0 (FileMap.lookupD files1 cid0)
  let hints2 := FileMap.insert s.hint_files cid0 (FileMap.lookupD s.hint_files cid0)
  match HashmapKeydir.for_each CompState (compactStep s.opts.max_log_file_size)
      s.keydir { files := files2, hints := hints2, cid := cid0 } with
  | .err e => .err e
  | .panicked => .panicked
  | .ok (kd', st') =>
    let filesF := st'.files.filter (fun p => decide (next < p.1))
    let hintsF := st'.hints.filter
      (fun p => decide (next < p.1) || !(FileMap.lookup st'.files p.1).isSome)
    .ok { data_files := filesF, hint_files := hintsF, active_file_id := aid,
          keydir := kd', opts := s.opts }

/-- A data record as the engine writes it: CRC and timestamp header fields
plus key and value bytes. -/
structure Rec where
  crc : Nat
  ts : Nat
  key : List Byte
  value : List Byte
deriving DecidableEq, Repr

/-- Serialization of a list of records, laid out back to back (the shape of
every data segment this engine produces). -/
def encRecs : List Rec → List Byte
  | [] => []
  | r :: rs => encRecord r.crc r.ts r.key r.value ++ encRecs rs

/-- Key and value of the record fit the u32 header fields. -/
def RecWF (r : Rec) : Prop :=
  r.key.length < 4294967296 ∧ r.value.length < 4294967296

/-- Effect of replaying one record on the key directory (the loop body of
`build_keydir_from_data_file`). -/
def replayStep (tomb : List Byte) (fid : Nat) (kd : HashmapKeydir) (off : Nat)
    (r : Rec) : HashmapKeydir :=
  if r.value = tomb then HashmapKeydir.remove kd r.key
  else HashmapKeydir.put kd r.key
    { file_id := fid, offset := off,
      size := HEADER_SIZE + r.key.length + r.value.length,
      timestamp := r.ts % 4294967296 }

/-- Replay of a record list starting from a given offset. -/
def replayList (tomb : List Byte) (fid : Nat) :
    HashmapKeydir → Nat → List Rec → HashmapKeydir
  | kd, _, [] => kd
  | kd, off, r :: rs =>
    replayList tomb fid (replayStep tomb fid kd off r)
      (off + (HEADER_SIZE + r.key.length + r.value.length)) rs

/-- Key-directory entry `e` for key `k` points—inside segment table `m`—at a
well-formed record slice holding value `v`: some record `(crc, ts, k, v)`
occupies exactly the bytes `[offset, offset + size)` of file `file_id`, with
sizes fitting the u32 header fields. -/
def EntryGoodV (m : FileMap) (k : List Byte) (e : KeydirEntry)
    (v : List Byte) : Prop :=
  ∃ f crc ts,
    FileMap.lookup m e.file_id = some f ∧
    e.offset + e.size ≤ f.length ∧
    (f.drop e.offset).take e.size = encRecord crc ts k v ∧
    e.size = HEADER_SIZE + k.length + v.length ∧
    k.length < 4294967296 ∧ v.length < 4294967296

/-- `m'` refines `m` by append-only growth: every file of `m` is present in
`m'` with the same bytes possibly followed by more.  This is the only way the
engine ever changes registered files short of deleting them. -/
def Extends (m m' : FileMap) : Prop :=
  ∀ i f, FileMap.lookup m i = some f → ∃ t, FileMap.lookup m' i = some (f ++ t)

/-! ### Helper lemmas: byte encodings and list surgery -/

theorem fromBE32_enc (n : Nat) :
    fromBE32 (n / 16777216 % 256) (n / 65536 % 256) (n / 256 % 256) (n % 256) =
      n % 4294967296 := by
  unfold fromBE32
  omega

theorem DataHeader.new_length (crc ts a b : Nat) :
    (DataHeader.new crc ts a b).length = 16 := rfl

theorem hdrKeySz_new (crc ts a b : Nat) :
    hdrKeySz (DataHeader.new crc ts a b) = a % 4294967296 := by
  have h : hdrKeySz (DataHeader.new crc ts a b) =
      fromBE32 (a / 16777216 % 256) (a / 65536 % 256) (a / 256 % 256) (a % 256) := rfl
  rw [h, fromBE32_enc]

theorem hdrValueSz_new (crc ts a b : Nat) :
    hdrValueSz (DataHeader.new crc ts a b) = b % 4294967296 := by
  have h : hdrValueSz (DataHeader.new crc ts a b) =
      fromBE32 (b / 16777216 % 256) (b / 65536 % 256) (b / 256 % 256) (b % 256) := rfl
  rw [h, fromBE32_enc]

theorem hdrTimestamp_new (crc ts a b : Nat) :
    hdrTimestamp (DataHeader.new crc ts a b) = ts % 4294967296 := by
  have h : hdrTimestamp (DataHeader.new crc ts a b) =
      fromBE32 (ts / 16777216 % 256) (ts / 65536 % 256) (ts / 256 % 256) (ts % 256) := rfl
  rw [h, fromBE32_enc]

theorem encRecord_length (crc ts : Nat) (k v : List Byte) :
    (encRecord crc ts k v).length = 16 + k.length + v.length := by
  simp [encRecord, DataHeader.new, toBE32]
  omega

theorem drop_at_len (a b : List Byte) (n : Nat) (hn : n = a.length) :
    (a ++ b).drop n = b := by
  subst hn
  exact List.drop_left a b

theorem extract_at_len (a b c : List Byte) (n m : Nat) (hn : n = a.length)
    (hm : m = b.length) : ((a ++ (b ++ c)).drop n).take m = b := by
  subst hn hm
  rw [List.drop_left]
  exact List.take_left b c

/-- Parsing a freshly serialized record back from a file: `read_from` at the
offset where `write_to` placed a record recovers its header, key and value,
for any surrounding bytes. -/
theorem read_from_at (pre k v suf : List Byte) (crc ts : Nat)
    (hk : k.length < 4294967296) (hv : v.length < 4294967296) :
    DataEntry.read_from (pre ++ encRecord crc ts k v ++ suf) pre.length =
      .ok (some { header := DataHeader.new crc ts k.length v.length,
                  key := k, value := v, offset := none, file_id := none }) := by
  have hassoc : pre ++ encRecord crc ts k v ++ suf =
      pre ++ (DataHeader.new crc ts k.length v.length ++ (k ++ (v ++ suf))) := by
    simp [encRecord]
  rw [hassoc]
  have hHlen : (DataHeader.new crc ts k.length v.length).length = 16 :=
    DataHeader.new_length crc ts k.length v.length
  set H := DataHeader.new crc ts k.length v.length with hHdef
  set file := pre ++ (H ++ (k ++ (v ++ suf))) with hfdef
  have hflen : file.length = pre.length + (16 + (k.length + (v.length + suf.length))) := by
    simp [hfdef, hHlen]
  have hraw : (file.drop pre.length).take 16 = H :=
    extract_at_len pre H (k ++ (v ++ suf)) pre.length 16 rfl hHlen.symm
  have hsplit1 : file = (pre ++ H) ++ (k ++ (v ++ suf)) := by simp [hfdef]
  have hkey : (file.drop (pre.length + 16)).take k.length = k := by
    rw [hsplit1]
    exact extract_at_len (pre ++ H) k (v ++ suf) (pre.length + 16) k.length
      (by simp [hHlen]) rfl
  have hsplit2 : file = ((pre ++ H) ++ k) ++ (v ++ suf) := by simp [hfdef]
  have hval : (file.drop (pre.length + 16 + k.length)).take v.length = v := by
    rw [hsplit2]
    refine extract_at_len ((pre ++ H) ++ k) v suf (pre.length + 16 + k.length)
      v.length ?_ rfl
    simp [hHlen]
    omega
  have hks : hdrKeySz H = k.length := by
    rw [hHdef, hdrKeySz_new]
    exact Nat.mod_eq_of_lt hk
  have hvs : hdrValueSz H = v.length := by
    rw [hHdef, hdrValueSz_new]
    exact Nat.mod_eq_of_lt hv
  simp only [DataEntry.read_from, HEADER_SIZE]
  rw [hraw, hHlen]
  rw [if_neg (by decide : ¬ (16 = 0))]
  simp only [Nat.sub_self, List.replicate_zero, List.append_nil, hks, hvs]
  simp only [readExact]
  rw [if_pos (by omega : pre.length + 16 + k.length ≤ file.length)]
  rw [hkey]
  rw [if_pos (by omega : pre.length + 16 + k.length + v.length ≤ file.length)]
  rw [hval]

/-! ### Helper lemmas: key directory -/

theorem HashmapKeydir.get_put_ge (m : HashmapKeydir) (k : List Byte)
    (e : KeydirEntry)
    (h : ∀ e₀, HashmapKeydir.get m k = some e₀ → e₀.timestamp ≤ e.timestamp) :
    HashmapKeydir.get (HashmapKeydir.put m k e) k = some e := by
  induction m with
  | nil => simp [HashmapKeydir.put, HashmapKeydir.get]
  | cons p m ih =>
    obtain ⟨k', e'⟩ := p
    by_cases hk : k = k'
    · subst hk
      have he' : e'.timestamp ≤ e.timestamp := by
        apply h
        simp [HashmapKeydir.get]
      simp [HashmapKeydir.put, HashmapKeydir.get, he']
    · have hne : ¬ (k = k') := hk
      simp only [HashmapKeydir.put, if_neg hne]
      simp only [HashmapKeydir.get, if_neg hne]
      apply ih
      intro e₀ h₀
      apply h
      simpa [HashmapKeydir.get, if_neg hne] using h₀

theorem HashmapKeydir.get_put_ne (m : HashmapKeydir) (k q : List Byte)
    (e : KeydirEntry) (h : q ≠ k) :
    HashmapKeydir.get (HashmapKeydir.put m k e) q = HashmapKeydir.get m q := by
  induction m with
  | nil => simp [HashmapKeydir.put, HashmapKeydir.get, h]
  | cons p m ih =>
    obtain ⟨k', e'⟩ := p
    by_cases hk : k = k'
    · subst hk
      by_cases hts : e'.timestamp ≤ e.timestamp <;>
        simp [HashmapKeydir.put, HashmapKeydir.get, hts, h]
    · by_cases hq : q = k' <;>
        simp [HashmapKeydir.put, HashmapKeydir.get, hk, hq, ih]

theorem HashmapKeydir.get_put_isSome (m : HashmapKeydir) (k : List Byte)
    (e : KeydirEntry) :
    (HashmapKeydir.get (HashmapKeydir.put m k e) k).isSome = true := by
  induction m with
  | nil => simp [HashmapKeydir.put, HashmapKeydir.get]
  | cons p m ih =>
    obtain ⟨k', e'⟩ := p
    by_cases hk : k = k'
    · subst hk
      by_cases hts : e'.timestamp ≤ e.timestamp <;>
        simp [HashmapKeydir.put, HashmapKeydir.get, hts]
    · simp [HashmapKeydir.put, HashmapKeydir.get, hk, ih]

theorem HashmapKeydir.put_of_absent (m : HashmapKeydir) (k : List Byte)
    (e : KeydirEntry) (h : HashmapKeydir.get m k = none) :
    HashmapKeydir.put m k e = m ++ [(k, e)] := by
  induction m with
  | nil => simp [HashmapKeydir.put]
  | cons p m ih =>
    obtain ⟨k', e'⟩ := p
    by_cases hk : k = k'
    · subst hk
      simp [HashmapKeydir.get] at h
    · simp only [HashmapKeydir.get, if_neg hk] at h
      simp [HashmapKeydir.put, hk, ih h]

theorem HashmapKeydir.put_of_older (m : HashmapKeydir) (k : List Byte)
    (e e₀ : KeydirEntry) (h : HashmapKeydir.get m k = some e₀)
    (hts : e.timestamp < e₀.timestamp) :
    HashmapKeydir.put m k e = m := by
  induction m with
  | nil => simp [HashmapKeydir.get] at h
  | cons p m ih =>
    obtain ⟨k', e'⟩ := p
    by_cases hk : k = k'
    · subst hk
      have he : e' = e₀ := by simpa [HashmapKeydir.get] using h
      subst he
      simp [HashmapKeydir.put, Nat.not_le.mpr hts]
    · simp only [HashmapKeydir.get, if_neg hk] at h
      simp [HashmapKeydir.put, hk, ih h]

theorem HashmapKeydir.remove_cons (k' : List Byte) (e' : KeydirEntry)
    (m : HashmapKeydir) (k : List Byte) :
    HashmapKeydir.remove ((k', e') :: m) k =
      if k' = k then HashmapKeydir.remove m k
      else (k', e') :: HashmapKeydir.remove m k := by
  by_cases h : k' = k <;> simp [HashmapKeydir.remove, List.filter_cons, h]

theorem HashmapKeydir.get_remove_self (m : HashmapKeydir) (k : List Byte) :
    HashmapKeydir.get (HashmapKeydir.remove m k) k = none := by
  induction m with
  | nil => rfl
  | cons p m ih =>
    obtain ⟨k', e'⟩ := p
    rw [HashmapKeydir.remove_cons]
    by_cases hk : k' = k
    · simpa [hk] using ih
    · have hk2 : ¬ (k = k') := fun h => hk h.symm
      simp [hk, HashmapKeydir.get, hk2, ih]

theorem HashmapKeydir.get_remove_ne (m : HashmapKeydir) (k q : List Byte)
    (h : q ≠ k) :
    HashmapKeydir.get (HashmapKeydir.remove m k) q = HashmapKeydir.get m q := by
  induction m with
  | nil => rfl
  | cons p m ih =>
    obtain ⟨k', e'⟩ := p
    rw [HashmapKeydir.remove_cons]
    by_cases hk : k' = k
    · subst hk
      have hq : ¬ (q = k') := h
      simp [HashmapKeydir.get, hq, ih]
    · by_cases hq : q = k' <;> simp [hk, hq, HashmapKeydir.get, ih]

theorem HashmapKeydir.contains_remove_self (m : HashmapKeydir) (k : List Byte) :
    HashmapKeydir.contains_key (HashmapKeydir.remove m k) k = false := by
  simp [HashmapKeydir.contains_key, HashmapKeydir.get_remove_self]

/-! ### Helper lemmas: segment table -/

theorem FileMap.lookup_insert_self (m : FileMap) (i : Nat) (f : List Byte) :
    FileMap.lookup (FileMap.insert m i f) i = some f := by
  induction m with
  | nil => simp [FileMap.insert, FileMap.lookup]
  | cons p m ih =>
    obtain ⟨j, g⟩ := p
    by_cases hij : i = j <;> simp [FileMap.insert, FileMap.lookup, hij, ih]

theorem FileMap.lookup_insert_ne (m : FileMap) (i j : Nat) (f : List Byte)
    (h : j ≠ i) :
    FileMap.lookup (FileMap.insert m i f) j = FileMap.lookup m j := by
  induction m with
  | nil => simp [FileMap.insert, FileMap.lookup, h]
  | cons p m ih =>
    obtain ⟨j', g⟩ := p
    by_cases hij : i = j'
    · subst hij
      simp [FileMap.insert, FileMap.lookup, h]
    · by_cases hjj : j = j' <;> simp [FileMap.insert, FileMap.lookup, hij, hjj, ih]

theorem FileMap.lookup_le_maxId (m : FileMap) (i : Nat) (f : List Byte)
    (h : FileMap.lookup m i = some f) : i ≤ FileMap.maxId m := by
  induction m with
  | nil => simp [FileMap.lookup] at h
  | cons p m ih =>
    obtain ⟨j, g⟩ := p
    by_cases hij : i = j
    · subst hij
      simp [FileMap.maxId]
    · simp only [FileMap.lookup, if_neg hij] at h
      have := ih h
      simp only [FileMap.maxId, List.foldr] at this ⊢
      omega

theorem FileMap.lookup_maxId_succ (m : FileMap) :
    FileMap.lookup m (FileMap.maxId m + 1) = none := by
  cases hl : FileMap.lookup m (FileMap.maxId m + 1) with
  | none => rfl
  | some f =>
    have := FileMap.lookup_le_maxId m _ _ hl
    omega

theorem FileMap.lookup_filter_gt (m : FileMap) (n j : Nat) (h : n < j) :
    FileMap.lookup (m.filter (fun p => decide (n < p.1))) j =
      FileMap.lookup m j := by
  induction m with
  | nil => rfl
  | cons p m ih =>
    obtain ⟨i, g⟩ := p
    by_cases hi : n < i
    · by_cases hij : j = i <;> simp [List.filter_cons, hi, FileMap.lookup, hij, ih]
    · have hij : ¬ (j = i) := by omega
      simp [List.filter_cons, hi, FileMap.lookup, hij, ih]

theorem FileMap.mem_insert (m : FileMap) (i : Nat) (f : List Byte)
    (p : Nat × List Byte) (h : p ∈ FileMap.insert m i f) : p.1 = i ∨ p ∈ m := by
  induction m with
  | nil =>
    simp [FileMap.insert] at h
    simp [h]
  | cons q m ih =>
    obtain ⟨j, g⟩ := q
    by_cases hij : i = j
    · subst hij
      simp only [FileMap.insert, if_pos rfl] at h
      rcases List.mem_cons.mp h with h | h
      · left; simp [h]
      · right; simp [h]
    · simp only [FileMap.insert, if_neg hij] at h
      rcases List.mem_cons.mp h with h | h
      · right; simp [h]
      · rcases ih h with h | h
        · left; exact h
        · right; simp [h]

/-! ### The write and set paths -/

/-- Both branches of `DiskStorage::write` (with and without rotation) append
one serialized record to the tail of the active segment and report its file id
and offset. -/
theorem DiskStorage.write_spec (s : DiskStorage) (k v : List Byte) (ts : Nat) :
    ∃ (g : FileMap) (a : Nat),
      DiskStorage.write s k v ts =
        ({ s with active_file_id := a,
                  data_files := FileMap.insert g a
                    (FileMap.lookupD g a ++ encRecord 0 ts k v) },
         a, (FileMap.lookupD g a).length) := by
  unfold DiskStorage.write
  dsimp only
  split
  · exact ⟨_, _, rfl⟩
  · exact ⟨_, _, rfl⟩

/-- Core success lemma for `DiskStorage::set` followed by `DiskStorage::get`:
with in-range sizes and a wall clock not behind the stored timestamp, `set`
succeeds and `get` returns exactly the value just written. -/
theorem DiskStorage.set_spec (s : DiskStorage) (k v : List Byte) (ts : Nat)
    (hk : k.length ≤ s.opts.max_key_size) (hv : v.length ≤ s.opts.max_value_size)
    (hk32 : k.length < 4294967296) (hv32 : v.length < 4294967296)
    (hts : ts < 4294967296)
    (hmono : ∀ e₀, HashmapKeydir.get s.keydir k = some e₀ → e₀.timestamp ≤ ts) :
    (DiskStorage.set s k v ts).2 = .ok () ∧
    DiskStorage.get (DiskStorage.set s k v ts).1 k = .ok (some v) ∧
    DiskStorage.contains_key (DiskStorage.set s k v ts).1 k = true ∧
    (DiskStorage.set s k v ts).1.opts = s.opts := by
  obtain ⟨g, a, hw⟩ := DiskStorage.write_spec s k v ts
  have hnk : ¬ (k.length > s.opts.max_key_size) := by omega
  have hnv : ¬ (v.length > s.opts.max_value_size) := by omega
  unfold DiskStorage.set
  rw [if_neg hnk, if_neg hnv]
  dsimp only
  rw [hw]
  dsimp only
  refine ⟨rfl, ?_, ?_, rfl⟩
  · set F := FileMap.lookupD g a with hF
    set ke : KeydirEntry :=
      { file_id := a, offset := F.length,
        size := HEADER_SIZE + k.length + v.length,
        timestamp := ts % 4294967296 } with hke
    have h1 : HashmapKeydir.get (HashmapKeydir.put s.keydir k ke) k = some ke := by
      apply HashmapKeydir.get_put_ge
      intro e₀ h₀
      have := hmono e₀ h₀
      have hmod : ts % 4294967296 = ts := Nat.mod_eq_of_lt hts
      simp [hke, hmod]
      omega
    unfold DiskStorage.get
    dsimp only
    rw [h1]
    dsimp only
    have h2 : FileMap.lookup (FileMap.insert g a (F ++ encRecord 0 ts k v))
        ke.file_id = some (F ++ encRecord 0 ts k v) :=
      FileMap.lookup_insert_self g a _
    rw [h2]
    dsimp only
    have h3 : DataFile.read (F ++ encRecord 0 ts k v) ke.offset =
        .ok (some { header := DataHeader.new 0 ts k.length v.length,
                    key := k, value := v, offset := none, file_id := none }) := by
      unfold DataFile.read
      rw [if_neg (by
        have := encRecord_length 0 ts k v
        simp only [List.length_append]
        omega)]
      have h0 := read_from_at F k v [] 0 ts hk32 hv32
      simpa using h0
    rw [h3]
  · set ke : KeydirEntry :=
      { file_id := a, offset := (FileMap.lookupD g a).length,
        size := HEADER_SIZE + k.length + v.length,
        timestamp := ts % 4294967296 } with hke
    unfold DiskStorage.contains_key HashmapKeydir.contains_key
    dsimp only
    exact HashmapKeydir.get_put_isSome s.keydir k ke

/-! ### Claim theorems -/

/-- C1.  Round-trip of set and get: for every key within `max_key_size` and
value within `max_value_size`, a successful `set(k,v)` with no intervening
mutation of `k` makes `get(k)` return `Some(v)`.  The hypotheses `hk32`,
`hv32`, `hts` reflect the u32 header fields (the spec requires sizes below
2^32, and the code stores the epoch second as u32), and `hmono` states that
the wall clock is not behind any timestamp already recorded for `k` (the
timestamps in the directory were taken at earlier `Utc::now()` calls).  The
conclusion holds even without the claim's `v ≠ tombstone` restriction. -/
theorem claim_c1_roundtrip (s : DiskStorage) (k v : List Byte) (ts : Nat)
    (hk : k.length ≤ s.opts.max_key_size) (hv : v.length ≤ s.opts.max_value_size)
    (hk32 : k.length < 4294967296) (hv32 : v.length < 4294967296)
    (hts : ts < 4294967296)
    (hmono : ∀ e₀, HashmapKeydir.get s.keydir k = some e₀ → e₀.timestamp ≤ ts) :
    (DiskStorage.set s k v ts).2 = .ok () ∧
    DiskStorage.get (DiskStorage.set s k v ts).1 k = .ok (some v) := by
  have h := DiskStorage.set_spec s k v ts hk hv hk32 hv32 hts hmono
  exact ⟨h.1, h.2.1⟩

theorem claim_c1_roundtrip_witness :
    (DiskStorage.set (DiskStorage.openEmpty ⟨100, false, 64, 256⟩) [1, 2] [3] 5).2 =
      .ok () ∧
    DiskStorage.get
      (DiskStorage.set (DiskStorage.openEmpty ⟨100, false, 64, 256⟩) [1, 2] [3] 5).1
      [1, 2] = .ok (some [3]) :=
  claim_c1_roundtrip (DiskStorage.openEmpty ⟨100, false, 64, 256⟩) [1, 2] [3] 5
    (by decide) (by decide) (by decide) (by decide) (by decide)
    (fun e₀ h₀ => Option.noConfusion h₀)

/-- C3.  Key-directory put rule: with no stored entry, `put` inserts the
incoming entry; with a stored entry, it replaces exactly when the incoming
timestamp is ≥ the stored one and otherwise leaves the directory entirely
unchanged. -/
theorem claim_c3_put_rule (m : HashmapKeydir) (k : List Byte) (e : KeydirEntry) :
    (HashmapKeydir.get m k = none →
      HashmapKeydir.put m k e = m ++ [(k, e)] ∧
      HashmapKeydir.get (HashmapKeydir.put m k e) k = some e) ∧
    (∀ e₀, HashmapKeydir.get m k = some e₀ → e₀.timestamp ≤ e.timestamp →
      HashmapKeydir.get (HashmapKeydir.put m k e) k = some e) ∧
    (∀ e₀, HashmapKeydir.get m k = some e₀ → e.timestamp < e₀.timestamp →
      HashmapKeydir.put m k e = m) := by
  refine ⟨?_, ?_, ?_⟩
  · intro h
    refine ⟨HashmapKeydir.put_of_absent m k e h, ?_⟩
    apply HashmapKeydir.get_put_ge
    intro e₀ h₀
    rw [h] at h₀
    cases h₀
  · intro e₀ h₀ hts
    apply HashmapKeydir.get_put_ge
    intro e₁ h₁
    rw [h₀] at h₁
    cases h₁
    exact hts
  · exact fun e₀ h₀ hts => HashmapKeydir.put_of_older m k e e₀ h₀ hts

theorem claim_c3_put_rule_witness :
    HashmapKeydir.get
      (HashmapKeydir.put [([0], ⟨1, 0, 16, 5⟩)] [0] ⟨2, 0, 16, 7⟩) [0] =
      some ⟨2, 0, 16, 7⟩ ∧
    HashmapKeydir.put [([0], ⟨1, 0, 16, 5⟩)] [0] ⟨2, 0, 16, 3⟩ =
      [([0], ⟨1, 0, 16, 5⟩)] :=
  ⟨(claim_c3_put_rule [([0], ⟨1, 0, 16, 5⟩)] [0] ⟨2, 0, 16, 7⟩).2.1
      ⟨1, 0, 16, 5⟩ (by decide) (by decide),
   (claim_c3_put_rule [([0], ⟨1, 0, 16, 5⟩)] [0] ⟨2, 0, 16, 3⟩).2.2
      ⟨1, 0, 16, 5⟩ (by decide) (by decide)⟩

/-- C5.  Size-limit rejection with atomicity: an oversized key fails with
`KeyIsTooLarge`, an oversized value (with an in-range key) fails with
`ValueIsTooLarge`, and in both cases the returned state is exactly the input
state: nothing was appended and the key directory is unchanged. -/
theorem claim_c5_size_limits (s : DiskStorage) (k v : List Byte) (ts : Nat) :
    (s.opts.max_key_size < k.length →
      DiskStorage.set s k v ts = (s, .error .KeyIsTooLarge)) ∧
    (k.length ≤ s.opts.max_key_size → s.opts.max_value_size < v.length →
      DiskStorage.set s k v ts = (s, .error .ValueIsTooLarge)) := by
  constructor
  · intro h
    unfold DiskStorage.set
    rw [if_pos (by omega)]
  · intro h1 h2
    unfold DiskStorage.set
    rw [if_neg (by omega), if_pos (by omega)]

theorem claim_c5_size_limits_witness :
    DiskStorage.set (DiskStorage.openEmpty ⟨100, false, 2, 2⟩) [1, 2, 3] [] 0 =
      (DiskStorage.openEmpty ⟨100, false, 2, 2⟩, .error .KeyIsTooLarge) ∧
    DiskStorage.set (DiskStorage.openEmpty ⟨100, false, 2, 2⟩) [1] [1, 2, 3] 0 =
      (DiskStorage.openEmpty ⟨100, false, 2, 2⟩, .error .ValueIsTooLarge) :=
  ⟨(claim_c5_size_limits (DiskStorage.openEmpty ⟨100, false, 2, 2⟩) [1, 2, 3] [] 0).1
      (by decide),
   (claim_c5_size_limits (DiskStorage.openEmpty ⟨100, false, 2, 2⟩) [1] [1, 2, 3] 0).2
      (by decide) (by decide)⟩

/-- C6.  Delete idempotence: a `delete` always succeeds; afterwards `get`
returns absent; a second `delete` on the resulting engine is a successful
no-op; and deleting an absent key succeeds silently with the state (files and
key directory) untouched. -/
theorem claim_c6_delete_idempotent (tomb : List Byte) (s : DiskStorage)
    (k : List Byte) (ts ts' : Nat) :
    (DiskStorage.delete tomb s k ts).2 = .ok () ∧
    DiskStorage.get (DiskStorage.delete tomb s k ts).1 k = .ok none ∧
    DiskStorage.delete tomb (DiskStorage.delete tomb s k ts).1 k ts' =
      ((DiskStorage.delete tomb s k ts).1, .ok ()) ∧
    (HashmapKeydir.contains_key s.keydir k = false →
      DiskStorage.delete tomb s k ts = (s, .ok ())) := by
  by_cases hc : HashmapKeydir.contains_key s.keydir k = false
  · have hd0 : ∀ t, DiskStorage.delete tomb s k t = (s, .ok ()) := by
      intro t
      unfold DiskStorage.delete
      rw [if_pos hc]
    have hget : HashmapKeydir.get s.keydir k = none := by
      simpa [HashmapKeydir.contains_key] using hc
    refine ⟨by rw [hd0 ts], ?_, ?_, fun _ => hd0 ts⟩
    · rw [hd0 ts]
      unfold DiskStorage.get
      rw [hget]
    · rw [hd0 ts]
      dsimp only
      exact hd0 ts'
  · obtain ⟨g, a, hw⟩ := DiskStorage.write_spec s k tomb ts
    have hd : DiskStorage.delete tomb s k ts =
        ({ s with active_file_id := a,
                  data_files := FileMap.insert g a
                    (FileMap.lookupD g a ++ encRecord 0 ts k tomb),
                  keydir := HashmapKeydir.remove s.keydir k }, .ok ()) := by
      unfold DiskStorage.delete
      rw [if_neg hc]
      dsimp only
      rw [hw]
    rw [hd]
    refine ⟨rfl, ?_, ?_, fun h => absurd h hc⟩
    · unfold DiskStorage.get
      dsimp only
      rw [HashmapKeydir.get_remove_self]
    · unfold DiskStorage.delete
      rw [if_pos (by
        dsimp only
        exact HashmapKeydir.contains_remove_self s.keydir k)]

theorem claim_c6_delete_idempotent_witness :
    DiskStorage.get
      (DiskStorage.delete [0] (DiskStorage.openEmpty ⟨100, false, 10, 10⟩) [1] 3).1
      [1] = .ok none :=
  (claim_c6_delete_idempotent [0] (DiskStorage.openEmpty ⟨100, false, 10, 10⟩)
    [1] 3 4).2.1

/-- C10.  Frame property: mutating key `k` (by `set` or `delete`, whether or
not the call succeeds) leaves the key-directory entry of any other key `k'`
unchanged, locator and timestamp included. -/
theorem claim_c10_frame (tomb : List Byte) (s : DiskStorage) (k v : List Byte)
    (ts ts' : Nat) (k' : List Byte) (hne : k' ≠ k) :
    HashmapKeydir.get (DiskStorage.set s k v ts).1.keydir k' =
      HashmapKeydir.get s.keydir k' ∧
    HashmapKeydir.get (DiskStorage.delete tomb s k ts').1.keydir k' =
      HashmapKeydir.get s.keydir k' := by
  constructor
  · unfold DiskStorage.set
    by_cases h1 : k.length > s.opts.max_key_size
    · rw [if_pos h1]
    · rw [if_neg h1]
      by_cases h2 : v.length > s.opts.max_value_size
      · rw [if_pos h2]
      · rw [if_neg h2]
        obtain ⟨g, a, hw⟩ := DiskStorage.write_spec s k v ts
        dsimp only
        rw [hw]
        dsimp only
        exact HashmapKeydir.get_put_ne s.keydir k k' _ hne
  · unfold DiskStorage.delete
    by_cases h1 : HashmapKeydir.contains_key s.keydir k = false
    · rw [if_pos h1]
    · rw [if_neg h1]
      obtain ⟨g, a, hw⟩ := DiskStorage.write_spec s k tomb ts'
      dsimp only
      rw [hw]
      dsimp only
      exact HashmapKeydir.get_remove_ne s.keydir k k' hne

theorem claim_c10_frame_witness :
    HashmapKeydir.get
      (DiskStorage.set (DiskStorage.openEmpty ⟨100, false, 10, 10⟩) [1] [2] 3).1.keydir
      [9] =
      HashmapKeydir.get (DiskStorage.openEmpty ⟨100, false, 10, 10⟩).keydir [9] :=
  (claim_c10_frame [0] (DiskStorage.openEmpty ⟨100, false, 10, 10⟩) [1] [2] 3 4 [9]
    (by decide)).1

/-- C8.  The engine never enforces the spec's non-empty-key precondition: a
`set` with the empty key succeeds (only the maximum-size bounds are checked),
after which `contains_key` is true for the empty key and `get` returns the
stored value. -/
theorem claim_c8_empty_key (s : DiskStorage) (v : List Byte) (ts : Nat)
    (hv : v.length ≤ s.opts.max_value_size) (hv32 : v.length < 4294967296)
    (hts : ts < 4294967296)
    (hmono : ∀ e₀, HashmapKeydir.get s.keydir [] = some e₀ → e₀.timestamp ≤ ts) :
    (DiskStorage.set s [] v ts).2 = .ok () ∧
    DiskStorage.contains_key (DiskStorage.set s [] v ts).1 [] = true ∧
    DiskStorage.get (DiskStorage.set s [] v ts).1 [] = .ok (some v) := by
  have h := DiskStorage.set_spec s [] v ts (Nat.zero_le _) hv (by decide) hv32
    hts hmono
  exact ⟨h.1, h.2.2.1, h.2.1⟩

theorem claim_c8_empty_key_witness :
    (DiskStorage.set (DiskStorage.openEmpty ⟨100, false, 10, 10⟩) [] [7] 3).2 =
      .ok () ∧
    DiskStorage.contains_key
      (DiskStorage.set (DiskStorage.openEmpty ⟨100, false, 10, 10⟩) [] [7] 3).1 [] =
      true ∧
    DiskStorage.get
      (DiskStorage.set (DiskStorage.openEmpty ⟨100, false, 10, 10⟩) [] [7] 3).1 [] =
      .ok (some [7]) :=
  claim_c8_empty_key (DiskStorage.openEmpty ⟨100, false, 10, 10⟩) [7] 3
    (by decide) (by decide) (by decide) (fun e₀ h₀ => Option.noConfusion h₀)

/-- C4, counterexample.  The claim says a read with fewer than 16 available
bytes returns "no more records" and that a truncated payload fails with
`DeserializeError`.  Both parts fail on the code: at an 8-byte tail of zeros,
`read` fills half the buffer and parsing yields a record with empty key and
value (not `None`); and a full header announcing a 1-byte key with no payload
makes `read_exact` fail with the `Io` kind, `DeserializeError` being raised
nowhere. -/
theorem claim_c4_counterexample :
    DataEntry.read_from (List.replicate 8 0) 0 ≠ .ok none ∧
    DataEntry.read_from (DataHeader.new 0 0 1 0) 0 = .error .Io ∧
    StoreError.Io ≠ StoreError.DeserializeError := by
  refine ⟨?_, ?_, ?_⟩ <;> decide

/-- C4, amended.  Reading a data record at offset P returns "no more records"
exactly when zero bytes are available at P (not: fewer than 16); and when the
16-byte header is fully available but fewer than `key_size + value_size`
payload bytes follow it, the read fails with the `Io` error kind (not
`DeserializeError`). -/
theorem claim_c4_amended (f : List Byte) (off : Nat) :
    (DataEntry.read_from f off = .ok none ↔ f.length ≤ off) ∧
    (off + 16 ≤ f.length →
      f.length < off + 16 + hdrKeySz ((f.drop off).take 16) +
        hdrValueSz ((f.drop off).take 16) →
      DataEntry.read_from f off = .error .Io) := by
  have hrawlen : ((f.drop off).take 16).length = min 16 (f.length - off) := by
    simp [List.length_take, List.length_drop]
  constructor
  · by_cases hle : f.length ≤ off
    · have hnil : f.drop off = [] := List.drop_eq_nil_of_le hle
      simp [DataEntry.read_from, hnil, hle]
    · have hne : ¬ ((f.drop off).take 16).length = 0 := by
        rw [hrawlen]
        omega
      refine iff_of_false ?_ hle
      simp only [DataEntry.read_from, HEADER_SIZE]
      rw [if_neg hne]
      intro h
      split at h
      · simp at h
      · split at h
        · simp at h
        · simp at h
  · intro h16 hshort
    have hne : ¬ ((f.drop off).take 16).length = 0 := by
      rw [hrawlen]
      omega
    have hrl : ((f.drop off).take 16).length = 16 := by
      rw [hrawlen]
      omega
    simp only [DataEntry.read_from, HEADER_SIZE]
    rw [if_neg hne, hrl]
    simp only [Nat.sub_self, List.replicate_zero, List.append_nil]
    by_cases hkey : off + 16 + hdrKeySz ((f.drop off).take 16) ≤ f.length
    · rw [readExact, if_pos hkey]
      dsimp only
      rw [readExact, if_neg (by omega)]
    · rw [readExact, if_neg hkey]

theorem claim_c4_amended_witness :
    DataEntry.read_from (DataHeader.new 0 0 1 0) 0 = .error .Io ∧
    DataEntry.read_from [] 0 = .ok none :=
  ⟨(claim_c4_amended (DataHeader.new 0 0 1 0) 0).2 (by decide) (by decide),
   (claim_c4_amended [] 0).1.mpr (by decide)⟩

/-! ### for_each -/

theorem FileMap.lookup_cons_self (i : Nat) (f : List Byte) (m : FileMap) :
    FileMap.lookup ((i, f) :: m) i = some f := by
  simp [FileMap.lookup]

theorem DataFile.read_nil (off : Nat) : DataFile.read [] off = .ok none := by
  unfold DataFile.read
  split
  · rfl
  · simp [DataEntry.read_from]

/-- The state produced by one `set` on a freshly opened empty directory. -/
theorem DiskStorage.set_openEmpty (opts : StoreOptions) (k v : List Byte)
    (ts : Nat) (hk : k.length ≤ opts.max_key_size)
    (hv : v.length ≤ opts.max_value_size) :
    DiskStorage.set (DiskStorage.openEmpty opts) k v ts =
      ({ data_files := [(1, encRecord 0 ts k v)], hint_files := [],
         active_file_id := 1,
         keydir := [(k, { file_id := 1, offset := 0,
                          size := HEADER_SIZE + k.length + v.length,
                          timestamp := ts % 4294967296 })],
         opts := opts }, .ok ()) := by
  unfold DiskStorage.set
  rw [if_neg (by simp [DiskStorage.openEmpty]; omega)]
  rw [if_neg (by simp [DiskStorage.openEmpty]; omega)]
  rfl

/-- C7.  The `for_each` contract: (i) on a one-key store obtained by a single
`set`, `for_each` reads that key's record through the segment table and
invokes `f` exactly once, on the record's key and value bytes, propagating an
`Err` from `f` as the overall result; (ii) an `Err` returned by `f` at the
first visited key aborts the iteration and propagates, whatever else the
directory holds; (iii) a key whose backing record reads as `None` is skipped
silently: the iteration succeeds without invoking the callback at all. -/
theorem claim_c7_for_each (opts : StoreOptions) (k v : List Byte) (ts : Nat)
    (f g f3 : List Byte → List Byte → Except StoreError Bool)
    (q : List Byte) (e1 : KeydirEntry)
    (s2 : DiskStorage) (k1 : List Byte) (e2 : KeydirEntry)
    (rest : HashmapKeydir) (df1 : List Byte) (de : DataEntry) (er : StoreError)
    (hk : k.length ≤ opts.max_key_size) (hv : v.length ≤ opts.max_value_size)
    (hk32 : k.length < 4294967296) (hv32 : v.length < 4294967296)
    (he1 : e1.file_id = 1)
    (hkd2 : s2.keydir = (k1, e2) :: rest)
    (hdf : FileMap.lookup s2.data_files e2.file_id = some df1)
    (hread2 : DataFile.read df1 e2.offset = .ok (some de))
    (herr : f3 de.key de.value = .error er) :
    DiskStorage.for_each (DiskStorage.set (DiskStorage.openEmpty opts) k v ts).1 f =
      (match f k v with
       | .error e => .err e
       | .ok _ => .ok ()) ∧
    DiskStorage.for_each s2 f3 = .err er ∧
    DiskStorage.for_each
      { data_files := [(1, [])], hint_files := [], active_file_id := 1,
        keydir := [(q, e1)], opts := opts } g = .ok () := by
  refine ⟨?_, ?_, ?_⟩
  · rw [DiskStorage.set_openEmpty opts k v ts hk hv]
    dsimp only
    have hread : DataFile.read (encRecord 0 ts k v) 0 =
        .ok (some { header := DataHeader.new 0 ts k.length v.length,
                    key := k, value := v, offset := none, file_id := none }) := by
      unfold DataFile.read
      rw [if_neg (Nat.not_lt_zero _)]
      have h0 := read_from_at [] k v [] 0 ts hk32 hv32
      simpa using h0
    unfold DiskStorage.for_each HashmapKeydir.for_each
    simp only [FileMap.lookup_cons_self, hread]
    cases hf : f k v with
    | error e => simp [hf]
    | ok b => cases b <;> simp [hf, HashmapKeydir.for_each]
  · unfold DiskStorage.for_each
    rw [hkd2]
    unfold HashmapKeydir.for_each
    simp only [hdf, hread2, herr]
  · unfold DiskStorage.for_each HashmapKeydir.for_each
    simp [he1, FileMap.lookup_cons_self, DataFile.read_nil, HashmapKeydir.for_each]

theorem claim_c7_for_each_witness :
    DiskStorage.for_each
      { data_files := [(1, encRecord 0 3 [1] [2])], hint_files := [],
        active_file_id := 1, keydir := [([1], ⟨1, 0, 18, 3⟩)],
        opts := ⟨100, false, 10, 10⟩ }
      (fun _ _ => .error .Io) = .err .Io ∧
    DiskStorage.for_each
      (DiskStorage.set (DiskStorage.openEmpty ⟨100, false, 10, 10⟩) [1] [2] 3).1
      (fun _ _ => .ok true) = .ok () := by
  have C := claim_c7_for_each ⟨100, false, 10, 10⟩ [1] [2] 3 (fun _ _ => .ok true)
    (fun _ _ => .ok true) (fun _ _ => .error .Io) [5] ⟨1, 0, 16, 0⟩
    { data_files := [(1, encRecord 0 3 [1] [2])], hint_files := [],
      active_file_id := 1, keydir := [([1], ⟨1, 0, 18, 3⟩)],
      opts := ⟨100, false, 10, 10⟩ }
    [1] ⟨1, 0, 18, 3⟩ [] (encRecord 0 3 [1] [2])
    ⟨DataHeader.new 0 3 1 1, [1], [2], none, none⟩ .Io
    (by decide) (by decide) (by decide) (by decide) (by decide) (by decide)
    (by decide) (by decide) (by decide)
  exact ⟨C.2.1, C.1.trans rfl⟩

/-! ### Replay of data files -/

theorem replayFrom_none (tomb : List Byte) (fid : Nat) (kd : HashmapKeydir)
    (f : List Byte) (offset : Nat)
    (h : DataEntry.read_from f offset = .ok none) :
    DiskStorage.replayFrom tomb fid kd f offset = .ok kd := by
  rw [DiskStorage.replayFrom]
  split
  · next heq =>
    rw [h] at heq
    cases heq
  · rfl
  · next de heq =>
    rw [h] at heq
    cases heq

theorem replayFrom_some (tomb : List Byte) (fid : Nat) (kd : HashmapKeydir)
    (f : List Byte) (offset : Nat) (de : DataEntry)
    (h : DataEntry.read_from f offset = .ok (some de)) :
    DiskStorage.replayFrom tomb fid kd f offset =
      DiskStorage.replayFrom tomb fid
        (if de.value = tomb then HashmapKeydir.remove kd de.key
         else HashmapKeydir.put kd de.key
           { file_id := fid, offset := offset,
             size := HEADER_SIZE + de.key.length + de.value.length,
             timestamp := hdrTimestamp de.header }) f
        (offset + (HEADER_SIZE + de.key.length + de.value.length)) := by
  conv_lhs => rw [DiskStorage.replayFrom]
  split
  · next heq =>
    rw [h] at heq
    cases heq
  · next heq =>
    rw [h] at heq
    cases heq
  · next de' heq =>
    rw [h] at heq
    cases heq
    rfl

theorem encRecs_append (xs ys : List Rec) :
    encRecs (xs ++ ys) = encRecs xs ++ encRecs ys := by
  induction xs with
  | nil => simp [encRecs]
  | cons r xs ih => simp [encRecs, ih]

/-- Replaying a serialized record list byte-by-byte equals folding the record
list through the keydir, whatever well-formed prefix of the file precedes
it. -/
theorem replayFrom_encRecs (tomb : List Byte) (fid : Nat) (rs : List Rec)
    (hwf : ∀ r ∈ rs, RecWF r) :
    ∀ (kd : HashmapKeydir) (done : List Byte),
      DiskStorage.replayFrom tomb fid kd (done ++ encRecs rs) done.length =
        .ok (replayList tomb fid kd done.length rs) := by
  induction rs with
  | nil =>
    intro kd done
    have hread : DataEntry.read_from (done ++ encRecs []) done.length =
        .ok none := by
      have hnil : (done ++ encRecs []).drop done.length = [] := by
        simp [encRecs]
      simp [DataEntry.read_from, hnil]
    rw [replayFrom_none tomb fid kd _ _ hread]
    rfl
  | cons r rs ih =>
    intro kd done
    have hr : RecWF r := hwf r (by simp)
    have hsp : done ++ encRecs (r :: rs) =
        done ++ encRecord r.crc r.ts r.key r.value ++ encRecs rs := by
      simp [encRecs]
    have hread : DataEntry.read_from (done ++ encRecs (r :: rs)) done.length =
        .ok (some { header := DataHeader.new r.crc r.ts r.key.length r.value.length,
                    key := r.key, value := r.value, offset := none,
                    file_id := none }) := by
      rw [hsp]
      exact read_from_at done r.key r.value (encRecs rs) r.crc r.ts hr.1 hr.2
    rw [replayFrom_some tomb fid kd _ _ _ hread]
    dsimp only
    rw [hdrTimestamp_new]
    have hoff : done.length + (HEADER_SIZE + r.key.length + r.value.length) =
        (done ++ encRecord r.crc r.ts r.key r.value).length := by
      rw [List.length_append, encRecord_length]
      simp [HEADER_SIZE]
    have hfile : done ++ encRecs (r :: rs) =
        (done ++ encRecord r.crc r.ts r.key r.value) ++ encRecs rs := by
      simp [encRecs]
    rw [hoff, hfile]
    rw [ih (fun r' hr' => hwf r' (by simp [hr'])) _ _]
    rw [← hoff]
    simp [replayList, replayStep]

theorem replayList_snoc_tomb (tomb : List Byte) (fid : Nat) (c t : Nat)
    (k : List Byte) (xs : List Rec) :
    ∀ (kd : HashmapKeydir) (off : Nat),
      HashmapKeydir.contains_key
        (replayList tomb fid kd off (xs ++ [{ crc := c, ts := t, key := k,
                                              value := tomb }])) k = false := by
  induction xs with
  | nil =>
    intro kd off
    simp [replayList, replayStep, HashmapKeydir.contains_remove_self]
  | cons r xs ih =>
    intro kd off
    simp [replayList, ih]

/-- After `write`, the active segment's bytes are its previous content (or the
empty content of a freshly rotated segment) followed by the one appended
record; the key directory is untouched. -/
theorem DiskStorage.write_active_bytes (s : DiskStorage) (k v : List Byte)
    (ts : Nat) :
    ∃ pre,
      FileMap.lookupD (DiskStorage.write s k v ts).1.data_files
        (DiskStorage.write s k v ts).1.active_file_id =
        pre ++ encRecord 0 ts k v ∧
      (pre = FileMap.lookupD s.data_files s.active_file_id ∨ pre = []) ∧
      (DiskStorage.write s k v ts).1.keydir = s.keydir := by
  unfold DiskStorage.write
  dsimp only
  split
  · refine ⟨[], ?_, Or.inr rfl, rfl⟩
    have h1 : FileMap.lookup s.data_files (FileMap.maxId s.data_files + 1) =
        none := FileMap.lookup_maxId_succ s.data_files
    have h2 : FileMap.lookupD s.data_files (FileMap.maxId s.data_files + 1) =
        [] := by
      simp [FileMap.lookupD, h1]
    have hG : FileMap.lookupD
        (FileMap.insert s.data_files (FileMap.maxId s.data_files + 1)
          (FileMap.lookupD s.data_files (FileMap.maxId s.data_files + 1)))
        (FileMap.maxId s.data_files + 1) = [] := by
      rw [FileMap.lookupD, FileMap.lookup_insert_self]
      exact h2
    rw [FileMap.lookupD, FileMap.lookup_insert_self]
    rw [hG]
    rfl
  · refine ⟨FileMap.lookupD s.data_files s.active_file_id, ?_, Or.inl rfl, rfl⟩
    rw [FileMap.lookupD, FileMap.lookup_insert_self]
    rfl

/-- C9.  `set` does not reject the tombstone as a value: `set(k, tombstone)`
succeeds and an in-session `get(k)` returns the tombstone bytes, yet replaying
the resulting active data file (as `build_keydir_from_data_file` does on
reopen) treats the final record as a deletion, so whatever key directory the
earlier files produced, after replay the key is absent: the binding does not
survive close and reopen. -/
theorem claim_c9_tombstone_value (tomb : List Byte) (s : DiskStorage)
    (k : List Byte) (ts : Nat) (rs : List Rec)
    (hact : FileMap.lookupD s.data_files s.active_file_id = encRecs rs)
    (hwf : ∀ r ∈ rs, RecWF r)
    (hk : k.length ≤ s.opts.max_key_size)
    (htl : tomb.length ≤ s.opts.max_value_size)
    (hk32 : k.length < 4294967296) (ht32 : tomb.length < 4294967296)
    (hts : ts < 4294967296)
    (hmono : ∀ e₀, HashmapKeydir.get s.keydir k = some e₀ → e₀.timestamp ≤ ts) :
    (DiskStorage.set s k tomb ts).2 = .ok () ∧
    DiskStorage.get (DiskStorage.set s k tomb ts).1 k = .ok (some tomb) ∧
    ∀ (fid : Nat) (kd₀ : HashmapKeydir), ∃ kd',
      DiskStorage.replayFrom tomb fid kd₀
        (FileMap.lookupD (DiskStorage.set s k tomb ts).1.data_files
          (DiskStorage.set s k tomb ts).1.active_file_id) 0 = .ok kd' ∧
      HashmapKeydir.contains_key kd' k = false := by
  have hs := DiskStorage.set_spec s k tomb ts hk htl hk32 ht32 hts hmono
  refine ⟨hs.1, hs.2.1, ?_⟩
  intro fid kd₀
  obtain ⟨pre, hbytes, hpre, -⟩ := DiskStorage.write_active_bytes s k tomb ts
  have hset1 : FileMap.lookupD (DiskStorage.set s k tomb ts).1.data_files
      (DiskStorage.set s k tomb ts).1.active_file_id =
      pre ++ encRecord 0 ts k tomb := by
    unfold DiskStorage.set
    rw [if_neg (by omega), if_neg (by omega)]
    dsimp only
    exact hbytes
  rw [hset1]
  have hpre2 : ∃ rs₂, pre = encRecs rs₂ ∧ ∀ r ∈ rs₂, RecWF r := by
    rcases hpre with h | h
    · exact ⟨rs, by rw [h, hact], hwf⟩
    · exact ⟨[], by rw [h]; rfl, by simp⟩
  obtain ⟨rs₂, hpreeq, hwf₂⟩ := hpre2
  have hall : pre ++ encRecord 0 ts k tomb =
      encRecs (rs₂ ++ [Rec.mk 0 ts k tomb]) := by
    rw [hpreeq, encRecs_append]
    simp [encRecs]
  rw [hall]
  refine ⟨replayList tomb fid kd₀ 0 (rs₂ ++ [Rec.mk 0 ts k tomb]), ?_, ?_⟩
  · have hwf3 : ∀ r ∈ rs₂ ++ [Rec.mk 0 ts k tomb], RecWF r := by
      intro r hr
      rcases List.mem_append.mp hr with h | h
      · exact hwf₂ r h
      · simp at h
        subst h
        exact ⟨hk32, ht32⟩
    have := replayFrom_encRecs tomb fid (rs₂ ++ [Rec.mk 0 ts k tomb]) hwf3 kd₀ []
    simpa using this
  · exact replayList_snoc_tomb tomb fid 0 ts k rs₂ kd₀ 0

theorem claim_c9_tombstone_value_witness :
    (DiskStorage.set (DiskStorage.openEmpty ⟨100, false, 10, 10⟩) [1] [9] 3).2 =
      .ok () ∧
    DiskStorage.get
      (DiskStorage.set (DiskStorage.openEmpty ⟨100, false, 10, 10⟩) [1] [9] 3).1
      [1] = .ok (some [9]) ∧
    ∃ kd', DiskStorage.replayFrom [9] 1 []
        (FileMap.lookupD
          (DiskStorage.set (DiskStorage.openEmpty ⟨100, false, 10, 10⟩) [1] [9] 3).1.data_files
          (DiskStorage.set (DiskStorage.openEmpty ⟨100, false, 10, 10⟩) [1] [9] 3).1.active_file_id)
        0 = .ok kd' ∧
      HashmapKeydir.contains_key kd' [1] = false := by
  have C := claim_c9_tombstone_value [9]
    (DiskStorage.openEmpty ⟨100, false, 10, 10⟩) [1] 3 [] (by decide) (by simp)
    (by decide) (by decide) (by decide) (by decide) (by decide)
    (fun e₀ h₀ => Option.noConfusion h₀)
  exact ⟨C.1, C.2.1, C.2.2 1 []⟩

/-! ### Compaction support lemmas -/

theorem slice_append (f t : List Byte) (off sz : Nat) (h : off + sz ≤ f.length) :
    (((f ++ t).drop off).take sz) = ((f.drop off).take sz) := by
  rw [List.drop_append_eq_append_drop, List.take_append_eq_append_take]
  have h2 : off - f.length = 0 := by omega
  have h1 : sz - (f.drop off).length = 0 := by
    rw [List.length_drop]
    omega
  rw [h1, h2]
  simp

theorem Extends.refl (m : FileMap) : Extends m m := by
  intro i f h
  exact ⟨[], by rw [h, List.append_nil]⟩

theorem Extends.trans {m₁ m₂ m₃ : FileMap} (h₁ : Extends m₁ m₂)
    (h₂ : Extends m₂ m₃) : Extends m₁ m₃ := by
  intro i f h
  obtain ⟨t, ht⟩ := h₁ i f h
  obtain ⟨u, hu⟩ := h₂ i _ ht
  exact ⟨t ++ u, by rw [hu, List.append_assoc]⟩

theorem Extends_insert_tail (m : FileMap) (i : Nat) (x : List Byte) :
    Extends m (FileMap.insert m i (FileMap.lookupD m i ++ x)) := by
  intro j f hj
  by_cases hij : j = i
  · subst hij
    refine ⟨x, ?_⟩
    rw [FileMap.lookup_insert_self]
    have hD : FileMap.lookupD m j = f := by simp [FileMap.lookupD, hj]
    rw [hD]
  · exact ⟨[], by rw [FileMap.lookup_insert_ne _ _ _ _ hij, hj, List.append_nil]⟩

theorem Extends_insert_self (m : FileMap) (i : Nat) :
    Extends m (FileMap.insert m i (FileMap.lookupD m i)) := by
  have h := Extends_insert_tail m i []
  rw [List.append_nil] at h
  exact h

theorem EntryGoodV_mono {m m' : FileMap} (hmm : Extends m m')
    {k : List Byte} {e : KeydirEntry} {v : List Byte}
    (h : EntryGoodV m k e v) : EntryGoodV m' k e v := by
  obtain ⟨f, crc, ts, hf, hle, hslice, hsz, hk, hv⟩ := h
  obtain ⟨t, ht⟩ := hmm e.file_id f hf
  refine ⟨f ++ t, crc, ts, ht, ?_, ?_, hsz, hk, hv⟩
  · rw [List.length_append]
    omega
  · rw [slice_append f t e.offset e.size hle]
    exact hslice

theorem FileMap.lookup_mem (m : FileMap) (i : Nat) (f : List Byte)
    (h : FileMap.lookup m i = some f) : (i, f) ∈ m := by
  induction m with
  | nil => simp [FileMap.lookup] at h
  | cons p m ih =>
    obtain ⟨j, g⟩ := p
    by_cases hij : i = j
    · subst hij
      have hg : g = f := by simpa [FileMap.lookup] using h
      subst hg
      simp
    · simp only [FileMap.lookup, if_neg hij] at h
      simp [ih h]

theorem HashmapKeydir.get_mem (m : HashmapKeydir) (k : List Byte)
    (e : KeydirEntry) (h : HashmapKeydir.get m k = some e) : (k, e) ∈ m := by
  induction m with
  | nil => simp [HashmapKeydir.get] at h
  | cons p m ih =>
    obtain ⟨k', e'⟩ := p
    by_cases hk : k = k'
    · subst hk
      have hg : e' = e := by simpa [HashmapKeydir.get] using h
      subst hg
      simp
    · simp only [HashmapKeydir.get, if_neg hk] at h
      simp [ih h]

/-- A well-formed slice parses back to its record, independent of the bytes
around it. -/
theorem read_from_slice (f : List Byte) (off sz : Nat) (k v : List Byte)
    (crc ts : Nat) (hle : off + sz ≤ f.length)
    (hslice : (f.drop off).take sz = encRecord crc ts k v)
    (hsz : sz = HEADER_SIZE + k.length + v.length)
    (hk : k.length < 4294967296) (hv : v.length < 4294967296) :
    DataEntry.read_from f off =
      .ok (some { header := DataHeader.new crc ts k.length v.length, key := k,
                  value := v, offset := none, file_id := none }) := by
  have hdec : f = f.take off ++ encRecord crc ts k v ++ f.drop (off + sz) := by
    rw [← hslice]
    have h1 : f.drop (off + sz) = (f.drop off).drop sz := by
      rw [List.drop_drop]
    rw [h1, List.append_assoc, List.take_append_drop, List.take_append_drop]
  have hofflen : (f.take off).length = off := by
    rw [List.length_take]
    have hsz16 : 0 < sz := by rw [hsz]; simp [HEADER_SIZE]
    omega
  calc DataEntry.read_from f off
      = DataEntry.read_from
          (f.take off ++ encRecord crc ts k v ++ f.drop (off + sz))
          (f.take off).length := by rw [← hdec, hofflen]
    _ = _ := read_from_at (f.take off) k v (f.drop (off + sz)) crc ts hk hv

/-- A `get` whose key-directory entry points at a well-formed slice returns
the slice's value. -/
theorem get_of_EntryGoodV (s : DiskStorage) (k : List Byte) (e : KeydirEntry)
    (v : List Byte) (hget : HashmapKeydir.get s.keydir k = some e)
    (hgood : EntryGoodV s.data_files k e v) :
    DiskStorage.get s k = .ok (some v) := by
  obtain ⟨f, crc, ts, hf, hle, hslice, hsz, hk, hv⟩ := hgood
  unfold DiskStorage.get
  rw [hget]
  dsimp only
  rw [hf]
  dsimp only
  have hread : DataFile.read f e.offset =
      .ok (some { header := DataHeader.new crc ts k.length v.length, key := k,
                  value := v, offset := none, file_id := none }) := by
    unfold DataFile.read
    rw [if_neg (by omega)]
    exact read_from_slice f e.offset e.size k v crc ts hle hslice hsz hk hv
  rw [hread]

/-- Success of one copy step: with a valid source entry the copy cannot panic;
the entry is redirected to the tail of the current output, the table grows by
append only, and the redirected entry points at an identical record slice. -/
theorem compactStepCopy_spec (A : Nat) (k : List Byte) (e : KeydirEntry)
    (st : CompState) (v : List Byte)
    (hcid : A + 3 ≤ st.cid) (hids : ∀ p ∈ st.files, p.1 ≤ st.cid)
    (hefid : e.file_id ≤ A) (hgood : EntryGoodV st.files k e v) :
    ∃ e' st₂, compactStepCopy k e st = .ok (false, e', st₂) ∧
      st₂.cid = st.cid ∧
      (∀ p ∈ st₂.files, p.1 ≤ st₂.cid) ∧
      Extends st.files st₂.files ∧
      e'.file_id = st.cid ∧
      (∀ w, EntryGoodV st.files k e w → EntryGoodV st₂.files k e' w) := by
  obtain ⟨f, crc, ts, hf, hle, hslice, hsz, hk32, hv32⟩ := hgood
  unfold compactStepCopy
  rw [hf]
  dsimp only
  rw [if_pos hle]
  refine ⟨_, _, rfl, rfl, ?_, ?_, rfl, ?_⟩
  · dsimp only
    intro p hp
    rcases FileMap.mem_insert _ _ _ p hp with h | h
    · omega
    · exact hids p h
  · exact Extends_insert_tail st.files st.cid ((f.drop e.offset).take e.size)
  · intro w hw
    obtain ⟨fw, crcw, tsw, hfw, hlew, hslw, hszw, hkw, hvw⟩ := hw
    have hffw : fw = f := by
      rw [hf] at hfw
      exact (Option.some.injEq _ _).mp hfw.symm
    subst hffw
    have hpiecelen : ((fw.drop e.offset).take e.size).length = e.size := by
      rw [List.length_take, List.length_drop]
      omega
    refine ⟨FileMap.lookupD st.files st.cid ++ (fw.drop e.offset).take e.size,
      crcw, tsw, ?_, ?_, ?_, hszw, hkw, hvw⟩
    · exact FileMap.lookup_insert_self st.files st.cid _
    · dsimp only
      rw [List.length_append, hpiecelen]
    · dsimp only
      rw [drop_at_len (FileMap.lookupD st.files st.cid) _ _ rfl]
      rw [List.take_of_length_le (le_of_eq hpiecelen)]
      exact hslw

/-- Success of one full compaction iteration (possible advance, then copy). -/
theorem compactStep_spec (maxLog A : Nat) (k : List Byte) (e : KeydirEntry)
    (st : CompState) (v : List Byte)
    (hcid : A + 3 ≤ st.cid) (hids : ∀ p ∈ st.files, p.1 ≤ st.cid)
    (hefid : e.file_id ≤ A) (hgood : EntryGoodV st.files k e v) :
    ∃ e' st₂, compactStep maxLog k e st = .ok (false, e', st₂) ∧
      st.cid ≤ st₂.cid ∧ A + 3 ≤ st₂.cid ∧
      (∀ p ∈ st₂.files, p.1 ≤ st₂.cid) ∧
      Extends st.files st₂.files ∧
      st.cid ≤ e'.file_id ∧
      (∀ w, EntryGoodV st.files k e w → EntryGoodV st₂.files k e' w) := by
  unfold compactStep
  dsimp only
  split
  · have hE₁ : Extends st.files
        (FileMap.insert st.files (st.cid + 1)
          (FileMap.lookupD st.files (st.cid + 1))) :=
      Extends_insert_self st.files (st.cid + 1)
    have hids₁ : ∀ p ∈ FileMap.insert st.files (st.cid + 1)
        (FileMap.lookupD st.files (st.cid + 1)), p.1 ≤ st.cid + 1 := by
      intro p hp
      rcases FileMap.mem_insert _ _ _ p hp with h | h
      · omega
      · have := hids p h
        omega
    obtain ⟨e', st₂, hstep, hcid₂, hids₂, hE₂, hfe', htr⟩ :=
      compactStepCopy_spec A k e
        { files := FileMap.insert st.files (st.cid + 1)
            (FileMap.lookupD st.files (st.cid + 1)),
          hints := FileMap.insert st.hints (st.cid + 1)
            (FileMap.lookupD st.hints (st.cid + 1)),
          cid := st.cid + 1 } v (by show A + 3 ≤ st.cid + 1; omega) hids₁ hefid
        (EntryGoodV_mono hE₁ hgood)
    have hcid₂' : st₂.cid = st.cid + 1 := hcid₂
    have hfe'2 : e'.file_id = st.cid + 1 := hfe'
    refine ⟨e', st₂, hstep, by omega, by omega, hids₂,
      Extends.trans hE₁ hE₂, by omega, ?_⟩
    intro w hw
    exact htr w (EntryGoodV_mono hE₁ hw)
  · obtain ⟨e', st₂, hstep, hcid₂, hids₂, hE₂, hfe', htr⟩ :=
      compactStepCopy_spec A k e st v hcid hids hefid hgood
    exact ⟨e', st₂, hstep, by omega, by omega, hids₂, hE₂, by omega, htr⟩

/-- The whole compaction pass over the key directory: it cannot fail, the
output ids only grow from the initial compaction id, files grow append-only,
and every rewritten entry points (inside the post-pass table) at an identical
record slice for the same key and value. -/
theorem compact_fold (maxLog A : Nat) :
    ∀ (kdl : HashmapKeydir) (st : CompState),
      A + 3 ≤ st.cid →
      (∀ p ∈ st.files, p.1 ≤ st.cid) →
      (∀ p ∈ kdl, p.2.file_id ≤ A ∧ ∃ v, EntryGoodV st.files p.1 p.2 v) →
      ∃ out st',
        HashmapKeydir.for_each CompState (compactStep maxLog) kdl st =
          .ok (out, st') ∧
        st.cid ≤ st'.cid ∧
        (∀ p ∈ st'.files, p.1 ≤ st'.cid) ∧
        Extends st.files st'.files ∧
        List.Forall₂ (fun p q => p.1 = q.1 ∧ st.cid ≤ q.2.file_id ∧
          (FileMap.lookup st'.files q.2.file_id).isSome = true ∧
          (∀ w, EntryGoodV st.files p.1 p.2 w → EntryGoodV st'.files p.1 q.2 w))
          kdl out := by
  intro kdl
  induction kdl with
  | nil =>
    intro st h1 h2 h3
    exact ⟨[], st, rfl, Nat.le_refl _, h2, Extends.refl st.files,
      List.Forall₂.nil⟩
  | cons p kdl ih =>
    intro st hcid hids hgood
    obtain ⟨k, e⟩ := p
    obtain ⟨hefid, v, hv⟩ := hgood (k, e) (by simp)
    obtain ⟨e', st₂, hstep, hle2, hcid2, hids2, hE2, hfe', htr⟩ :=
      compactStep_spec maxLog A k e st v hcid hids hefid hv
    obtain ⟨out', st', heq', hle', hids', hE', hfa'⟩ := ih st₂ hcid2 hids2
      (by
        intro q hq
        obtain ⟨hq1, w, hw⟩ := hgood q (by simp [hq])
        exact ⟨hq1, w, EntryGoodV_mono hE2 hw⟩)
    refine ⟨(k, e') :: out', st', ?_, by omega, hids',
      Extends.trans hE2 hE', ?_⟩
    · unfold HashmapKeydir.for_each
      rw [hstep]
      dsimp only
      rw [if_neg (by simp)]
      rw [heq']
    · refine List.Forall₂.cons ⟨rfl, hfe', ?_, ?_⟩ ?_
      · have hgg : EntryGoodV st'.files k e' v :=
          EntryGoodV_mono hE' (htr v hv)
        obtain ⟨f, _, _, hf, -⟩ := hgg
        rw [hf]
        rfl
      · intro w hw
        exact EntryGoodV_mono hE' (htr w hw)
      · refine List.Forall₂.imp ?_ hfa'
        intro a b hab
        obtain ⟨h1, h2, h3, h4⟩ := hab
        refine ⟨h1, by omega, h3, ?_⟩
        intro w hw
        exact h4 w (EntryGoodV_mono hE2 hw)

/-- Pointwise-related key directories return related results on every key. -/
theorem forall2_kdGet {P : List Byte → KeydirEntry → KeydirEntry → Prop} :
    ∀ (kdl out : HashmapKeydir),
      List.Forall₂ (fun p q => p.1 = q.1 ∧ P p.1 p.2 q.2) kdl out →
      ∀ k, (HashmapKeydir.get kdl k = none ∧ HashmapKeydir.get out k = none) ∨
        ∃ e e', HashmapKeydir.get kdl k = some e ∧
          HashmapKeydir.get out k = some e' ∧ P k e e' := by
  intro kdl out h
  induction h with
  | nil =>
    intro k
    exact Or.inl ⟨rfl, rfl⟩
  | @cons a b l₁ l₂ hab hrest ih =>
    intro k
    obtain ⟨hfst, hP⟩ := hab
    by_cases hk : k = a.1
    · subst hk
      right
      refine ⟨a.2, b.2, ?_, ?_, hP⟩
      · cases a
        simp [HashmapKeydir.get]
      · cases a
        cases b
        simp only at hfst
        simp [HashmapKeydir.get, hfst]
    · have hk2 : ¬ (k = b.1) := by
        rw [← hfst]
        exact hk
      cases a
      cases b
      rcases ih k with ⟨h1, h2⟩ | ⟨e, e', h1, h2, h3⟩
      · left
        constructor
        · simpa [HashmapKeydir.get, hk] using h1
        · simpa [HashmapKeydir.get, hk2] using h2
      · right
        refine ⟨e, e', ?_, ?_, h3⟩
        · simpa [HashmapKeydir.get, hk] using h1
        · simpa [HashmapKeydir.get, hk2] using h2

theorem forall2_mem_right {α β : Type} {R : α → β → Prop} :
    ∀ {l₁ : List α} {l₂ : List β}, List.Forall₂ R l₁ l₂ →
      ∀ b ∈ l₂, ∃ a ∈ l₁, R a b := by
  intro l₁ l₂ h
  induction h with
  | nil =>
    intro b hb
    cases hb
  | cons hab hrest ih =>
    intro b hb
    rcases List.mem_cons.mp hb with h | h
    · subst h
      exact ⟨_, by simp, hab⟩
    · obtain ⟨a, ha, hr⟩ := ih b h
      exact ⟨a, by simp [ha], hr⟩

theorem EntryGoodV_filter (m : FileMap) (n : Nat) (k : List Byte)
    (e : KeydirEntry) (v : List Byte) (h : EntryGoodV m k e v)
    (hn : n < e.file_id) :
    EntryGoodV (m.filter (fun p => decide (n < p.1))) k e v := by
  obtain ⟨f, crc, ts, hf, hle, hslice, hsz, hk, hv⟩ := h
  refine ⟨f, crc, ts, ?_, hle, hslice, hsz, hk, hv⟩
  rw [FileMap.lookup_filter_gt m n e.file_id hn]
  exact hf

/-- C2.  Compaction preservation: from any state whose key-directory entries
all point at well-formed record slices and whose registered file ids do not
exceed the active id (both hold for every state the engine builds), `compact`
succeeds; afterwards `get` returns exactly what it returned before for every
key; every key-directory entry points into a segment created during
compaction (id ≥ active+3 > the new active id active+2) and is present in the
segment table; and every file with id at or below the pre-compaction boundary
`next_file_id = active+1` has been removed (the model's table removal mirrors
both `fs::remove_file` and the `retain`, which act on the same set). -/
theorem claim_c2_compaction (s : DiskStorage)
    (hids : ∀ p ∈ s.data_files, p.1 ≤ s.active_file_id)
    (hgood : ∀ p ∈ s.keydir, ∃ v, EntryGoodV s.data_files p.1 p.2 v) :
    ∃ s', DiskStorage.compact s = .ok s' ∧
      (∀ k, DiskStorage.get s' k = DiskStorage.get s k) ∧
      (∀ p ∈ s'.keydir, s.active_file_id + 2 < p.2.file_id ∧
        (FileMap.lookup s'.data_files p.2.file_id).isSome = true) ∧
      (∀ p ∈ s'.data_files, s.active_file_id + 1 < p.1) := by
  have hE₀ : Extends s.data_files
      (FileMap.insert
        (FileMap.insert s.data_files (s.active_file_id + 1 + 1)
          (FileMap.lookupD s.data_files (s.active_file_id + 1 + 1)))
        (s.active_file_id + 1 + 2)
        (FileMap.lookupD
          (FileMap.insert s.data_files (s.active_file_id + 1 + 1)
            (FileMap.lookupD s.data_files (s.active_file_id + 1 + 1)))
          (s.active_file_id + 1 + 2))) :=
    Extends.trans (Extends_insert_self s.data_files (s.active_file_id + 1 + 1))
      (Extends_insert_self _ (s.active_file_id + 1 + 2))
  have hids₀ : ∀ p ∈ FileMap.insert
      (FileMap.insert s.data_files (s.active_file_id + 1 + 1)
        (FileMap.lookupD s.data_files (s.active_file_id + 1 + 1)))
      (s.active_file_id + 1 + 2)
      (FileMap.lookupD
        (FileMap.insert s.data_files (s.active_file_id + 1 + 1)
          (FileMap.lookupD s.data_files (s.active_file_id + 1 + 1)))
        (s.active_file_id + 1 + 2)), p.1 ≤ s.active_file_id + 1 + 2 := by
    intro p hp
    rcases FileMap.mem_insert _ _ _ p hp with h | h
    · omega
    · rcases FileMap.mem_insert _ _ _ p h with h2 | h2
      · omega
      · have := hids p h2
        omega
  have hgood₂ : ∀ p ∈ s.keydir, p.2.file_id ≤ s.active_file_id ∧
      ∃ v, EntryGoodV (FileMap.insert
        (FileMap.insert s.data_files (s.active_file_id + 1 + 1)
          (FileMap.lookupD s.data_files (s.active_file_id + 1 + 1)))
        (s.active_file_id + 1 + 2)
        (FileMap.lookupD
          (FileMap.insert s.data_files (s.active_file_id + 1 + 1)
            (FileMap.lookupD s.data_files (s.active_file_id + 1 + 1)))
          (s.active_file_id + 1 + 2))) p.1 p.2 v := by
    intro p hp
    obtain ⟨v, hv⟩ := hgood p hp
    refine ⟨?_, v, EntryGoodV_mono hE₀ hv⟩
    obtain ⟨f, crc, ts, hf, -⟩ := hv
    exact hids _ (FileMap.lookup_mem s.data_files p.2.file_id f hf)
  obtain ⟨out, st', heq, hle, hids', hE', hfa⟩ :=
    compact_fold s.opts.max_log_file_size s.active_file_id s.keydir
      { files := FileMap.insert
          (FileMap.insert s.data_files (s.active_file_id + 1 + 1)
            (FileMap.lookupD s.data_files (s.active_file_id + 1 + 1)))
          (s.active_file_id + 1 + 2)
          (FileMap.lookupD
            (FileMap.insert s.data_files (s.active_file_id + 1 + 1)
              (FileMap.lookupD s.data_files (s.active_file_id + 1 + 1)))
            (s.active_file_id + 1 + 2)),
        hints := FileMap.insert s.hint_files (s.active_file_id + 1 + 2)
          (FileMap.lookupD s.hint_files (s.active_file_id + 1 + 2)),
        cid := s.active_file_id + 1 + 2 }
      (by show s.active_file_id + 3 ≤ s.active_file_id + 1 + 2; omega)
      hids₀ hgood₂
  have hmatch := @forall2_kdGet
    (fun key e e' => s.active_file_id + 1 + 2 ≤ e'.file_id ∧
      (FileMap.lookup st'.files e'.file_id).isSome = true ∧
      ∀ w, EntryGoodV (FileMap.insert
        (FileMap.insert s.data_files (s.active_file_id + 1 + 1)
          (FileMap.lookupD s.data_files (s.active_file_id + 1 + 1)))
        (s.active_file_id + 1 + 2)
        (FileMap.lookupD
          (FileMap.insert s.data_files (s.active_file_id + 1 + 1)
            (FileMap.lookupD s.data_files (s.active_file_id + 1 + 1)))
          (s.active_file_id + 1 + 2))) key e w →
        EntryGoodV st'.files key e' w)
    s.keydir out hfa
  refine ⟨{ data_files := st'.files.filter (fun p => decide (s.active_file_id + 1 < p.1)), hint_files := st'.hints.filter (fun p => decide (s.active_file_id + 1 < p.1) || !(FileMap.lookup st'.files p.1).isSome), active_file_id := s.active_file_id + 1 + 1, keydir := out, opts := s.opts }, ?_, ?_, ?_, ?_⟩
  · unfold DiskStorage.compact
    dsimp only
    rw [heq]
  · intro k
    rcases hmatch k with ⟨h1, h2⟩ | ⟨e, e', h1, h2, hfid, hsome, htr⟩
    · unfold DiskStorage.get
      dsimp only
      rw [h1, h2]
    · obtain ⟨v, hv⟩ := hgood (k, e) (HashmapKeydir.get_mem s.keydir k e h1)
      have hgf : EntryGoodV (st'.files.filter
          (fun p => decide (s.active_file_id + 1 < p.1))) k e' v :=
        EntryGoodV_filter st'.files (s.active_file_id + 1) k e' v
          (htr v (EntryGoodV_mono hE₀ hv)) (by omega)
      rw [get_of_EntryGoodV s k e v h1 hv]
      exact get_of_EntryGoodV _ k e' v h2 hgf
  · intro p hp
    obtain ⟨a, ha, hfst, hfid, hsome, htr⟩ := forall2_mem_right hfa p hp
    have hfid2 : s.active_file_id + 1 + 2 ≤ p.2.file_id := hfid
    refine ⟨by omega, ?_⟩
    dsimp only
    rw [FileMap.lookup_filter_gt st'.files (s.active_file_id + 1) p.2.file_id
      (by omega)]
    exact hsome
  · intro p hp
    have h2 := (List.mem_filter.mp hp).2
    simp only [decide_eq_true_eq] at h2
    exact h2

theorem claim_c2_compaction_witness :
    ∃ s', DiskStorage.compact
      { data_files := [(1, encRecord 0 3 [1] [2])], hint_files := [],
        active_file_id := 1, keydir := [([1], ⟨1, 0, 18, 3⟩)],
        opts := ⟨100, false, 10, 10⟩ } = .ok s' ∧
      (∀ k, DiskStorage.get s' k = DiskStorage.get
        { data_files := [(1, encRecord 0 3 [1] [2])], hint_files := [],
          active_file_id := 1, keydir := [([1], ⟨1, 0, 18, 3⟩)],
          opts := ⟨100, false, 10, 10⟩ } k) ∧
      (∀ p ∈ s'.keydir, 3 < p.2.file_id ∧
        (FileMap.lookup s'.data_files p.2.file_id).isSome = true) ∧
      (∀ p ∈ s'.data_files, 2 < p.1) :=
  claim_c2_compaction
    { data_files := [(1, encRecord 0 3 [1] [2])], hint_files := [],
      active_file_id := 1, keydir := [([1], ⟨1, 0, 18, 3⟩)],
      opts := ⟨100, false, 10, 10⟩ }
    (by
      intro p hp
      simp only [List.mem_singleton] at hp
      subst hp
      decide)
    (by
      intro p hp
      simp only [List.mem_singleton] at hp
      subst hp
      exact ⟨[2], encRecord 0 3 [1] [2], 0, 3, by decide, by decide, by decide,
        by decide, by decide, by decide⟩)
